import Mathlib

set_option maxRecDepth 8192

/-!
Verification of the screenshot diff-report tool.

The repository holds two variants of the same script:
  * the styled variant `.github/diff_report/diff_screenshots.py`, and
  * the simpler variant `.github/diff_screenshots.py`.

Both scripts recursively list the png files of a `before_dir` and an
`after_dir`, reduce each file path to a 3-segment key via
`get_pathname_fragment`, hash every file with sha256, classify the keys
into `only_in_before` / `only_in_after` / `diffs`, and render an HTML
report.

Embedding choices:
  * An input directory is modelled as the list of files the recursive
    glob enumeration returns, each file carrying its full path (a string
    with `/` separators, as on the POSIX CI runners the scripts target)
    and its byte content (`List Nat`).
  * `compute_file_hash` is modelled as an abstract function
    `hash : List Nat → H` into a type with decidable equality: the
    scripts only ever compare digests for equality, and the spec treats
    sha256 as collision-free, which corresponds to instantiating `hash`
    with an injective function.
  * Python's `dict` is modelled as an association list ordered with the
    most recent insertion first, looked up by first match, which gives
    exactly the dict's last-write-wins binding semantics.
  * Python's `set(paths_before) - set(paths_after)` is modelled as a
    deduplicated filtered list; only membership (and the deduplication
    itself) matter to the claims, the iteration order of a Python set
    being unspecified anyway.
  * Filesystem side effects (`os.makedirs`, `shutil.copy`, file writes)
    are modelled as explicit operation lists accumulated in program
    order.
-/

/-- Model of one enumerated input file: the path returned by
`list_files_recursively` and the byte content that `compute_file_hash`
would read. -/
structure SFile where
  path : String
  content : List Nat
deriving DecidableEq

/-- Model of `os.path.sep` on the POSIX CI runners both scripts target. -/
def sepC : Char := '/'

/-- Model of `os.path.sep` as a string, used when joining. -/
def sepS : String := "/"

/-- Model of Python's `str.split` for a single-character separator:
splitting on every occurrence, keeping empty pieces, with
`split_on c [] = [[]]` just as `"".split(sep) == [""]`. -/
def split_on (c : Char) : List Char → List (List Char)
  | [] => [[]]
  | x :: t =>
    if x = c then [] :: split_on c t
    else
      match split_on c t with
      | [] => [[x]]
      | h :: r => (x :: h) :: r

/-- Model of `path.split(os.path.sep)`. -/
def splitPath (p : String) : List String :=
  (split_on sepC p.data).map String.mk

/-- Model of `os.path.sep.join(parts)`. -/
def join_sep : List String → String
  | [] => ""
  | [s] => s
  | s :: rest => s ++ sepS ++ join_sep rest

/-- Model of `os.path.join(a, b)` for the uses in the scripts, where `b`
is always a relative path and `a` a nonempty directory name. -/
def pjoin (a b : String) : String := a ++ sepS ++ b

/-- Model of `os.path.dirname(k)` for the separator-normalized relative
keys the scripts pass it: everything before the last separator. -/
def dirname (k : String) : String := join_sep ((splitPath k).dropLast)

/-- Model of `screenshot_path.split(os.path.sep)[-1].split('.')[0]`: the
final path segment up to its first dot, used as the display name. -/
def name_of (k : String) : String :=
  String.mk ((split_on ('.') (((splitPath k).getLastD ("")).data)).headD [])

/-- Model of `screenshot_path.split(os.path.sep)[1]`: the middle segment
of a key. Keys built by `get_pathname_fragment` always have exactly
three segments, so the index is in range and the default is never
reached there. -/
def seg1 (k : String) : String := (splitPath k).getD 1 ("")

/-- Model of `get_pathname_fragment` from the styled variant
(`diff_report/diff_screenshots.py`): take the last three segments of the
path, raising `ValueError` — modelled as `Except.error` — when the path
has fewer than three segments. -/
def get_pathname_fragment (path : String) : Except String String :=
  let parts := splitPath path
  if parts.length < 3 then
    Except.error (("Path should have at least 3 parts: ") ++ path)
  else
    Except.ok (join_sep (parts.drop (parts.length - 3)))

/-- Model of `get_pathname_fragment` from the simpler variant
(`diff_screenshots.py`): `os.path.sep.join(parts[-3:])` with no length
check, so a short path is returned whole. -/
def get_pathname_fragment_simple (path : String) : String :=
  join_sep ((splitPath path).drop ((splitPath path).length - 3))

/-- Staging of an enumeration loop of the styled variant: reduce every
file to its `(key, content)` pair via `get_pathname_fragment`, stopping
at the first `ValueError` exactly as the Python loop would. Hashing and
accumulation over these pairs are pure, so the loops of the script
factor through this list. -/
def frag_files : List SFile → Except String (List (String × List Nat))
  | [] => Except.ok []
  | f :: fs =>
    match get_pathname_fragment f.path with
    | Except.error e => Except.error e
    | Except.ok k =>
      match frag_files fs with
      | Except.error e => Except.error e
      | Except.ok rest => Except.ok ((k, f.content) :: rest)

/-- Key list of a scan: `paths_before` / `paths_after` in the scripts. -/
def paths_of (ks : List (String × List Nat)) : List String := ks.map Prod.fst

/-- Model of a Python `dict` lookup over our insertion list
representation: first match wins. -/
def dict_lookup {H : Type} (k : String) : List (String × H) → Option H
  | [] => none
  | p :: t => if p.1 = k then some p.2 else dict_lookup k t

/-- Model of the `before_screenshots` dict built by the first loop:
`before_screenshots[key] = compute_file_hash(file)` for each enumerated
file in order. The dict is represented with the most recent insertion
first, so `dict_lookup` returns the binding of the last file inserted
for a key, exactly as a Python dict does. -/
def before_dict {H : Type} (hash : List Nat → H) (kb : List (String × List Nat)) :
    List (String × H) :=
  (kb.map (fun p => (p.1, hash p.2))).reverse

/-- Accumulator state of the after-directory loop. -/
structure AfterScan where
  only_in_after : List String
  diffs : List String
  paths_after : List String
deriving DecidableEq

/-- Model of one iteration of the after-directory loop:
`if screenshot_path not in before_screenshots: only_in_after.append(...)`
`elif before_screenshots[screenshot_path] != compute_file_hash(file): diffs.append(...)`
and `paths_after.append(...)` in every case. -/
def after_step {H : Type} [DecidableEq H] (hash : List Nat → H)
    (before_map : List (String × H)) (st : AfterScan) (p : String × List Nat) :
    AfterScan :=
  match dict_lookup p.1 before_map with
  | none =>
    { st with only_in_after := st.only_in_after ++ [p.1],
              paths_after := st.paths_after ++ [p.1] }
  | some h =>
    if h = hash p.2 then { st with paths_after := st.paths_after ++ [p.1] }
    else { st with diffs := st.diffs ++ [p.1],
                   paths_after := st.paths_after ++ [p.1] }

/-- Model of the whole after-directory loop. -/
def after_scan {H : Type} [DecidableEq H] (hash : List Nat → H)
    (before_map : List (String × H)) (ka : List (String × List Nat)) : AfterScan :=
  ka.foldl (after_step hash before_map) ⟨[], [], []⟩

/-- Model of `set(paths_before) - set(paths_after)`: the distinct keys of
`paths_before` that do not occur in `paths_after`. -/
def set_diff (pb pa : List String) : List String :=
  pb.dedup.filter (fun k => decide (k ∉ pa))

/-- Result of the diff engine: the three reported buckets, in the shape
both scripts hand to their renderer loops. `only_in_after` and `diffs`
are the accumulated lists; `only_in_before` is the set difference. -/
structure DiffResult where
  only_in_before : List String
  only_in_after : List String
  diffs : List String
deriving DecidableEq

/-- Pure core of the diff engine, over the `(key, content)` pairs of the
two enumerations: build the before dict, run the after loop, take the
set difference. -/
def diff_pure {H : Type} [DecidableEq H] (hash : List Nat → H)
    (kb ka : List (String × List Nat)) : DiffResult :=
  let m := before_dict hash kb
  let sc := after_scan hash m ka
  { only_in_before := set_diff (paths_of kb) sc.paths_after
    only_in_after := sc.only_in_after
    diffs := sc.diffs }

/-- Model of the complete diff phase of the styled variant: both
enumeration loops (each of which may raise on a malformed path) followed
by the pure classification. -/
def run_diff {H : Type} [DecidableEq H] (hash : List Nat → H)
    (before after : List SFile) : Except String DiffResult :=
  match frag_files before with
  | Except.error e => Except.error e
  | Except.ok kb =>
    match frag_files after with
    | Except.error e => Except.error e
    | Except.ok ka => Except.ok (diff_pure hash kb ka)

/-- Closed form of the `only_in_after` accumulator: the keys of the
after scan whose lookup in the before dict fails. -/
def oia_spec {H : Type} (m : List (String × H)) (ka : List (String × List Nat)) :
    List String :=
  ka.filterMap (fun p =>
    match dict_lookup p.1 m with
    | none => some p.1
    | some _ => none)

/-- Closed form of the `diffs` accumulator: the keys of the after scan
found in the before dict with a different digest. -/
def diffs_spec {H : Type} [DecidableEq H] (hash : List Nat → H)
    (m : List (String × H)) (ka : List (String × List Nat)) : List String :=
  ka.filterMap (fun p =>
    match dict_lookup p.1 m with
    | none => none
    | some h => if h = hash p.2 then none else some p.1)

/-- Decidable equality for `Except`, so that concrete runs of the
modelled pipeline can be evaluated by `decide`. -/
instance instDecEqExcept {ε α : Type} [DecidableEq ε] [DecidableEq α] :
    DecidableEq (Except ε α)
  | Except.error x, Except.error y =>
    if h : x = y then isTrue (by rw [h])
    else isFalse (fun he => h (Except.error.inj he))
  | Except.error _, Except.ok _ => isFalse (fun he => Except.noConfusion he)
  | Except.ok _, Except.error _ => isFalse (fun he => Except.noConfusion he)
  | Except.ok x, Except.ok y =>
    if h : x = y then isTrue (by rw [h])
    else isFalse (fun he => h (Except.ok.inj he))

/-- First pair of a given key in an association list; applied to a
reversed insertion list it picks the binding of the last insertion. -/
def find_first (k : String) : List (String × List Nat) → Option (String × List Nat)
  | [] => none
  | p :: t => if p.1 = k then some p else find_first k t

/-- Exactly one of four propositions holds. -/
def exactly_one (a b c d : Prop) : Prop :=
  (a ∨ b ∨ c ∨ d) ∧ ¬(a ∧ b) ∧ ¬(a ∧ c) ∧ ¬(a ∧ d) ∧ ¬(b ∧ c) ∧ ¬(b ∧ d) ∧ ¬(c ∧ d)

/-- The implicit fourth classification of the spec's data model: a key
present in both scans for which every after-directory occurrence hashes
equal to the stored before-directory digest. Such keys are reported
nowhere. -/
def is_unchanged {H : Type} [DecidableEq H] (hash : List Nat → H)
    (kb ka : List (String × List Nat)) (k : String) : Prop :=
  k ∈ paths_of kb ∧ k ∈ paths_of ka ∧
    ∀ p ∈ ka, p.1 = k → dict_lookup k (before_dict hash kb) = some (hash p.2)

/-- Side effects and output of a renderer pass: the directories created
by `os.makedirs`, the `(source, destination)` pairs passed to
`shutil.copy`, and the accumulated HTML string, each in program order. -/
structure RenderOut where
  mkdirs : List String
  copies : List (String × String)
  html : String
deriving DecidableEq

/-- Appending loop over fragments: models `acc += f k` for each `k` of a
bucket, in order. -/
def concat_map (f : String → String) : List String → String
  | [] => ""
  | k :: t => f k ++ concat_map f t

/-- Fragment the styled variant appends for a key only in before
(line 96 of `diff_report/diff_screenshots.py`). The f-string interpolates
`screenshot_path.split(os.path.sep)[1].upper` — a bound-method object,
not a call — which Python renders as its repr, a string containing the
object's memory address; `upperRepr` abstracts that environment-dependent
rendering. -/
def frag_removed (upperRepr : String → String) (k : String) : String :=
  ("<p><h2>") ++ upperRepr (seg1 k) ++ (": REMOVED ") ++ name_of k ++
  ("</h2><img src=\x27") ++ pjoin ("before") k ++ ("\x27></p>")

/-- Fragment the styled variant appends for a key only in after. -/
def frag_added (upperRepr : String → String) (k : String) : String :=
  ("<p><h2>") ++ upperRepr (seg1 k) ++ (": ADDED ") ++ name_of k ++
  ("</h2><img src=\x27") ++ pjoin ("after") k ++ ("\x27></p>")

/-- Fragment the styled variant appends for a changed key: both images
side by side. -/
def frag_changed (upperRepr : String → String) (k : String) : String :=
  ("<p><h2>") ++ upperRepr (seg1 k) ++ (": ") ++ name_of k ++
  ("</h2><img src=\x27") ++ pjoin ("before") k ++ ("\x27>&nbsp;<img src=\x27") ++
  pjoin ("after") k ++ ("\x27></p>")

/-- Renderer of the styled variant (lines 86-115): create the two output
roots, then for each bucket create the per-key directories, copy the
source files, and append one fragment per entry; finish with the
no-differences fragment when all three buckets are empty. -/
def render_report (upperRepr : String → String) (bd ad od : String)
    (r : DiffResult) : RenderOut :=
  let odb := pjoin od ("before")
  let oda := pjoin od ("after")
  { mkdirs := [odb, oda]
      ++ r.only_in_before.map (fun k => pjoin odb (dirname k))
      ++ r.only_in_after.map (fun k => pjoin oda (dirname k))
      ++ r.diffs.flatMap (fun k => [pjoin odb (dirname k), pjoin oda (dirname k)])
    copies := r.only_in_before.map (fun k => (pjoin bd k, pjoin odb k))
      ++ r.only_in_after.map (fun k => (pjoin ad k, pjoin oda k))
      ++ r.diffs.flatMap
          (fun k => [(pjoin bd k, pjoin odb k), (pjoin ad k, pjoin oda k)])
    html := concat_map (frag_removed upperRepr) r.only_in_before
      ++ concat_map (frag_added upperRepr) r.only_in_after
      ++ concat_map (frag_changed upperRepr) r.diffs
      ++ (if r.only_in_after.isEmpty && r.only_in_before.isEmpty && r.diffs.isEmpty
          then ("<h1>No differences found</h1>") else ("")) }

/-- Fragment the simpler variant appends for a key only in before
(line 71 of `diff_screenshots.py`). -/
def frag_removed_simple (k : String) : String :=
  ("<p>REMOVED ") ++ name_of k ++ ("</br><img src=\x27") ++ pjoin ("before") k ++
  ("\x27></p>")

/-- Fragment the simpler variant appends for a key only in after. -/
def frag_added_simple (k : String) : String :=
  ("<p>ADDED ") ++ name_of k ++ ("</br><img src=\x27") ++ pjoin ("after") k ++
  ("\x27></p>")

/-- Fragment the simpler variant appends for a changed key. -/
def frag_changed_simple (k : String) : String :=
  ("<p>") ++ name_of k ++ ("</br><img src=\x27") ++ pjoin ("before") k ++
  ("\x27>&nbsp;<img src=\x27") ++ pjoin ("after") k ++ ("\x27></p>")

/-- Renderer of the simpler variant (lines 61-89): same loop structure,
but every `shutil.copy` call is commented out in the source, so the
copies list is empty; the HTML string starts with the literal
`<html><body>` prefix of line 61. -/
def render_simple (_bd _ad od : String) (r : DiffResult) : RenderOut :=
  let odb := pjoin od ("before")
  let oda := pjoin od ("after")
  { mkdirs := [odb, oda]
      ++ r.only_in_before.map (fun k => pjoin odb (dirname k))
      ++ r.only_in_after.map (fun k => pjoin oda (dirname k))
      ++ r.diffs.flatMap (fun k => [pjoin odb (dirname k), pjoin oda (dirname k)])
    copies := []
    html := ("<html><body>")
      ++ concat_map frag_removed_simple r.only_in_before
      ++ concat_map frag_added_simple r.only_in_after
      ++ concat_map frag_changed_simple r.diffs
      ++ (if r.only_in_after.isEmpty && r.only_in_before.isEmpty && r.diffs.isEmpty
          then ("<p>No differences found</p>") else ("")) }

/-- Final filesystem writes of a variant: the `(path, content)` pairs
written with `open(..., "w")` and the `(source, destination)` pairs
copied with `shutil.copy`. -/
structure FinalOut where
  writes : List (String × String)
  copies : List (String × String)
deriving DecidableEq

/-- Placeholder the styled variant substitutes in its template. -/
def placeholder : String := "\x7b\x7b content \x7d\x7d"

/-- Final phase of the styled variant (lines 117-126): substitute the
assembled fragment string into the `index.html` template read from the
script's own directory, write the result to `output_dir/index.html`, and
copy `pico.min.css` beside it. The template's content is external to the
repository, so it is a parameter. -/
def final_report (template script_dir od html_content : String) : FinalOut :=
  { writes := [(pjoin od ("index.html"), template.replace placeholder html_content)]
    copies := [(pjoin script_dir ("pico.min.css"), pjoin od ("pico.min.css"))] }

/-- Final phase of the simpler variant (lines 91-93): append the closing
tags to the HTML string and write it to `output_dir/diffs.html`; nothing
is copied and no template is involved. -/
def final_simple (od html_output : String) : FinalOut :=
  { writes := [(pjoin od ("diffs.html"), html_output ++ ("</body></html>"))]
    copies := [] }

example :
    run_diff (fun c => c)
      [⟨"b/en/v/A.png", [0]⟩, ⟨"b/es/v/B.png", [1]⟩]
      [⟨"a/en/v/A.png", [2]⟩, ⟨"a/fr/v/C.png", [3]⟩]
    = Except.ok ⟨["es/v/B.png"], ["fr/v/C.png"], ["en/v/A.png"]⟩ := rfl

example : get_pathname_fragment ("a/en/tools_views/Foo.png") = Except.ok ("en/tools_views/Foo.png") := rfl

example : get_pathname_fragment_simple ("tools_views/Foo.png") = ("tools_views/Foo.png") := by decide

example : name_of ("en/v/Foo.png") = ("Foo") := by decide

example : dirname ("en/v/Foo.png") = ("en/v") := by decide

theorem concat_map_decomp (f : String → String) {l : List String} {x : String}
    (h : x ∈ l) : ∃ s1 s2, concat_map f l = s1 ++ f x ++ s2 := by
  induction l with
  | nil => cases h
  | cons a t ih =>
    rcases List.mem_cons.mp h with rfl | hm
    · exact ⟨(""), concat_map f t, rfl⟩
    · rcases ih hm with ⟨s1, s2, he⟩
      exact ⟨f a ++ s1, s2, by simp [concat_map, he, String.append_assoc]⟩

theorem after_scan_go {H : Type} [DecidableEq H] (hash : List Nat → H)
    (m : List (String × H)) :
    ∀ (ka : List (String × List Nat)) (st : AfterScan),
      List.foldl (after_step hash m) st ka =
        ⟨st.only_in_after ++ oia_spec m ka, st.diffs ++ diffs_spec hash m ka,
         st.paths_after ++ paths_of ka⟩ := by
  intro ka
  induction ka with
  | nil =>
    intro st
    simp [oia_spec, diffs_spec, paths_of]
  | cons p t ih =>
    intro st
    show List.foldl _ (after_step hash m st p) t = _
    rw [ih]
    cases h : dict_lookup p.1 m with
    | none =>
      simp [after_step, h, oia_spec, diffs_spec, paths_of, List.filterMap_cons]
    | some hv =>
      by_cases he : hv = hash p.2 <;>
        simp [after_step, h, he, oia_spec, diffs_spec, paths_of, List.filterMap_cons]

theorem after_scan_eq {H : Type} [DecidableEq H] (hash : List Nat → H)
    (m : List (String × H)) (ka : List (String × List Nat)) :
    after_scan hash m ka = ⟨oia_spec m ka, diffs_spec hash m ka, paths_of ka⟩ := by
  unfold after_scan
  rw [after_scan_go]
  simp

theorem diff_pure_eq {H : Type} [DecidableEq H] (hash : List Nat → H)
    (kb ka : List (String × List Nat)) :
    diff_pure hash kb ka =
      ⟨set_diff (paths_of kb) (paths_of ka),
       oia_spec (before_dict hash kb) ka,
       diffs_spec hash (before_dict hash kb) ka⟩ := by
  unfold diff_pure
  simp only [after_scan_eq]

theorem run_diff_ok {H : Type} [DecidableEq H] (hash : List Nat → H)
    {before after : List SFile} {kb ka : List (String × List Nat)}
    (hb : frag_files before = Except.ok kb) (ha : frag_files after = Except.ok ka) :
    run_diff hash before after = Except.ok (diff_pure hash kb ka) := by
  unfold run_diff
  rw [hb, ha]

theorem mem_oia_spec {H : Type} (m : List (String × H))
    (ka : List (String × List Nat)) (K : String) :
    K ∈ oia_spec m ka ↔ ∃ c, (K, c) ∈ ka ∧ dict_lookup K m = none := by
  unfold oia_spec
  rw [List.mem_filterMap]
  constructor
  · rintro ⟨p, hp, hf⟩
    cases h : dict_lookup p.1 m with
    | none =>
      rw [h] at hf
      simp only [Option.some.injEq] at hf
      subst hf
      exact ⟨p.2, hp, h⟩
    | some hv => rw [h] at hf; cases hf
  · rintro ⟨c, hm, hl⟩
    exact ⟨(K, c), hm, by simp [hl]⟩

theorem mem_diffs_spec {H : Type} [DecidableEq H] (hash : List Nat → H)
    (m : List (String × H)) (ka : List (String × List Nat)) (K : String) :
    K ∈ diffs_spec hash m ka ↔
      ∃ c h, (K, c) ∈ ka ∧ dict_lookup K m = some h ∧ h ≠ hash c := by
  unfold diffs_spec
  rw [List.mem_filterMap]
  constructor
  · rintro ⟨p, hp, hf⟩
    cases h : dict_lookup p.1 m with
    | none => rw [h] at hf; cases hf
    | some hv =>
      rw [h] at hf
      have hf2 : (if hv = hash p.2 then none else some p.1) = some K := hf
      by_cases he : hv = hash p.2
      · rw [if_pos he] at hf2; cases hf2
      · rw [if_neg he] at hf2
        simp only [Option.some.injEq] at hf2
        subst hf2
        exact ⟨p.2, hv, hp, h, he⟩
  · rintro ⟨c, hv, hm, hl, hne⟩
    refine ⟨(K, c), hm, ?_⟩
    simp [hl, hne]

theorem mem_set_diff (pb pa : List String) (K : String) :
    K ∈ set_diff pb pa ↔ K ∈ pb ∧ K ∉ pa := by
  unfold set_diff
  rw [List.mem_filter, List.mem_dedup, decide_eq_true_iff]

theorem set_diff_nodup (pb pa : List String) : (set_diff pb pa).Nodup :=
  (List.nodup_dedup pb).filter _

theorem dict_lookup_map {H : Type} (hash : List Nat → H) (K : String)
    (l : List (String × List Nat)) :
    dict_lookup K (l.map (fun p => (p.1, hash p.2))) =
      Option.map (fun p => hash p.2) (find_first K l) := by
  induction l with
  | nil => rfl
  | cons p t ih =>
    by_cases h : p.1 = K <;> simp [dict_lookup, find_first, h, ih]

theorem before_dict_lookup {H : Type} (hash : List Nat → H) (K : String)
    (kb : List (String × List Nat)) :
    dict_lookup K (before_dict hash kb) =
      Option.map (fun p => hash p.2) (find_first K kb.reverse) := by
  unfold before_dict
  rw [← List.map_reverse]
  exact dict_lookup_map hash K kb.reverse

theorem find_first_none {K : String} {l : List (String × List Nat)} :
    find_first K l = none ↔ ∀ p ∈ l, p.1 ≠ K := by
  induction l with
  | nil => simp [find_first]
  | cons p t ih =>
    by_cases h : p.1 = K <;> simp [find_first, h, ih]

theorem find_first_some {K : String} {l : List (String × List Nat)}
    {p : String × List Nat} (h : find_first K l = some p) : p ∈ l ∧ p.1 = K := by
  induction l with
  | nil => cases h
  | cons q t ih =>
    by_cases hq : q.1 = K
    · rw [find_first, if_pos hq] at h
      injection h with h2
      subst h2
      exact ⟨List.mem_cons_self _ _, hq⟩
    · rw [find_first, if_neg hq] at h
      rcases ih h with ⟨hm, hk⟩
      exact ⟨List.mem_cons_of_mem _ hm, hk⟩

theorem dict_lookup_none_iff {H : Type} (hash : List Nat → H) (K : String)
    (kb : List (String × List Nat)) :
    dict_lookup K (before_dict hash kb) = none ↔ K ∉ paths_of kb := by
  rw [before_dict_lookup]
  rw [Option.map_eq_none']
  rw [find_first_none]
  unfold paths_of
  constructor
  · intro h hk
    rcases List.mem_map.mp hk with ⟨p, hp, hpk⟩
    exact h p (List.mem_reverse.mpr hp) hpk
  · intro h p hp hpk
    exact h (List.mem_map.mpr ⟨p, List.mem_reverse.mp hp, hpk⟩)

theorem dict_lookup_of_mem_keys {H : Type} (hash : List Nat → H) {K : String}
    {kb : List (String × List Nat)} (h : K ∈ paths_of kb) :
    ∃ c, (K, c) ∈ kb ∧ dict_lookup K (before_dict hash kb) = some (hash c) := by
  cases hf : find_first K kb.reverse with
  | none =>
    exact absurd h ((dict_lookup_none_iff hash K kb).mp
      (by simp [before_dict_lookup, hf]))
  | some p =>
    rcases find_first_some hf with ⟨hm, hk⟩
    refine ⟨p.2, ?_, ?_⟩
    · have : p = (K, p.2) := by rw [← hk]
      rw [← this]
      exact List.mem_reverse.mp hm
    · simp [before_dict_lookup, hf]

theorem find_first_nodup {K : String} {c : List Nat} {l : List (String × List Nat)}
    (hnd : (l.map Prod.fst).Nodup) (hm : (K, c) ∈ l) :
    find_first K l = some (K, c) := by
  induction l with
  | nil => cases hm
  | cons p t ih =>
    rw [List.map_cons, List.nodup_cons] at hnd
    rcases List.mem_cons.mp hm with he | ht
    · rw [find_first, ← he, if_pos rfl]
    · by_cases hq : p.1 = K
      · exact absurd (List.mem_map.mpr ⟨(K, c), ht, rfl⟩) (by rw [hq] at hnd; exact hnd.1)
      · rw [find_first, if_neg hq]
        exact ih hnd.2 ht

theorem dict_lookup_nodup {H : Type} (hash : List Nat → H) {K : String}
    {c : List Nat} {kb : List (String × List Nat)}
    (hnd : (paths_of kb).Nodup) (hm : (K, c) ∈ kb) :
    dict_lookup K (before_dict hash kb) = some (hash c) := by
  have hnd2 : (kb.reverse.map Prod.fst).Nodup := by
    rw [List.map_reverse]
    exact List.nodup_reverse.mpr hnd
  simp [before_dict_lookup, find_first_nodup hnd2 (List.mem_reverse.mpr hm)]

theorem nodup_key_unique {K : String} {a b : List Nat}
    {l : List (String × List Nat)} (hnd : (paths_of l).Nodup)
    (ha : (K, a) ∈ l) (hb : (K, b) ∈ l) : a = b := by
  have h1 := find_first_nodup hnd ha
  have h2 := find_first_nodup hnd hb
  rw [h1] at h2
  cases h2
  rfl

theorem frag_files_fwd :
    ∀ {fs : List SFile} {ks : List (String × List Nat)} {f : SFile} {K : String},
      frag_files fs = Except.ok ks → f ∈ fs →
      get_pathname_fragment f.path = Except.ok K → (K, f.content) ∈ ks := by
  intro fs
  induction fs with
  | nil => intro ks f K _ hm; cases hm
  | cons g t ih =>
    intro ks f K hok hm hf
    rw [frag_files] at hok
    cases hg : get_pathname_fragment g.path with
    | error e => rw [hg] at hok; cases hok
    | ok k =>
      rw [hg] at hok
      cases hr : frag_files t with
      | error e => rw [hr] at hok; cases hok
      | ok rest =>
        rw [hr] at hok
        simp only [Except.ok.injEq] at hok
        subst hok
        rcases List.mem_cons.mp hm with he | ht
        · subst he
          rw [hf] at hg
          cases hg
          exact List.mem_cons_self _ _
        · exact List.mem_cons_of_mem _ (ih hr ht hf)

theorem frag_files_rev :
    ∀ {fs : List SFile} {ks : List (String × List Nat)} {K : String} {c : List Nat},
      frag_files fs = Except.ok ks → (K, c) ∈ ks →
      ∃ f, f ∈ fs ∧ f.content = c ∧ get_pathname_fragment f.path = Except.ok K := by
  intro fs
  induction fs with
  | nil =>
    intro ks K c hok hm
    cases hok
    cases hm
  | cons g t ih =>
    intro ks K c hok hm
    rw [frag_files] at hok
    cases hg : get_pathname_fragment g.path with
    | error e => rw [hg] at hok; cases hok
    | ok k =>
      rw [hg] at hok
      cases hr : frag_files t with
      | error e => rw [hr] at hok; cases hok
      | ok rest =>
        rw [hr] at hok
        simp only [Except.ok.injEq] at hok
        subst hok
        rcases List.mem_cons.mp hm with he | ht
        · cases he
          exact ⟨g, List.mem_cons_self _ _, rfl, hg⟩
        · rcases ih hr ht with ⟨f, h1, h2, h3⟩
          exact ⟨f, List.mem_cons_of_mem _ h1, h2, h3⟩

theorem mem_paths_of {K : String} {ks : List (String × List Nat)} :
    K ∈ paths_of ks ↔ ∃ c, (K, c) ∈ ks := by
  unfold paths_of
  rw [List.mem_map]
  constructor
  · rintro ⟨p, hp, rfl⟩
    exact ⟨p.2, hp⟩
  · rintro ⟨c, hc⟩
    exact ⟨(K, c), hc, rfl⟩

theorem exactly_one_intro1 {a b c d : Prop} (h1 : a) (h2 : ¬b) (h3 : ¬c) (h4 : ¬d) :
    exactly_one a b c d :=
  ⟨Or.inl h1, fun h => h2 h.2, fun h => h3 h.2, fun h => h4 h.2,
   fun h => h2 h.1, fun h => h2 h.1, fun h => h3 h.1⟩

theorem exactly_one_intro2 {a b c d : Prop} (h2 : b) (h1 : ¬a) (h3 : ¬c) (h4 : ¬d) :
    exactly_one a b c d :=
  ⟨Or.inr (Or.inl h2), fun h => h1 h.1, fun h => h1 h.1, fun h => h1 h.1,
   fun h => h3 h.2, fun h => h4 h.2, fun h => h3 h.1⟩

theorem exactly_one_intro3 {a b c d : Prop} (h3 : c) (h1 : ¬a) (h2 : ¬b) (h4 : ¬d) :
    exactly_one a b c d :=
  ⟨Or.inr (Or.inr (Or.inl h3)), fun h => h1 h.1, fun h => h1 h.1, fun h => h1 h.1,
   fun h => h2 h.1, fun h => h2 h.1, fun h => h4 h.2⟩

theorem exactly_one_intro4 {a b c d : Prop} (h4 : d) (h1 : ¬a) (h2 : ¬b) (h3 : ¬c) :
    exactly_one a b c d :=
  ⟨Or.inr (Or.inr (Or.inr h4)), fun h => h1 h.1, fun h => h1 h.1, fun h => h1 h.1,
   fun h => h2 h.1, fun h => h2 h.1, fun h => h3 h.1⟩

/-- C2: for every key K that reduces from a file present only under the
before directory (no after-directory file reduces to K), K is a member
of the `only_in_before` result and of no other diff bucket. -/
theorem claim_C2 {H : Type} [DecidableEq H] (hash : List Nat → H)
    {before after : List SFile} {kb ka : List (String × List Nat)}
    {r : DiffResult} {fb : SFile} {K : String}
    (hb : frag_files before = Except.ok kb)
    (ha : frag_files after = Except.ok ka)
    (hr : run_diff hash before after = Except.ok r)
    (hfb : fb ∈ before)
    (hk : get_pathname_fragment fb.path = Except.ok K)
    (hnone : ∀ fa ∈ after, get_pathname_fragment fa.path ≠ Except.ok K) :
    K ∈ r.only_in_before ∧ K ∉ r.only_in_after ∧ K ∉ r.diffs := by
  have hrd := run_diff_ok hash hb ha
  rw [hr] at hrd
  injection hrd with hrd
  subst hrd
  simp only [diff_pure_eq]
  have hKkb : (K, fb.content) ∈ kb := frag_files_fwd hb hfb hk
  have hKpb : K ∈ paths_of kb := mem_paths_of.mpr ⟨fb.content, hKkb⟩
  have hKpa : K ∉ paths_of ka := by
    intro hmem
    rcases mem_paths_of.mp hmem with ⟨c, hc⟩
    rcases frag_files_rev ha hc with ⟨fa, hfa, _, hfrag⟩
    exact hnone fa hfa hfrag
  refine ⟨(mem_set_diff _ _ K).mpr ⟨hKpb, hKpa⟩, ?_, ?_⟩
  · intro hmem
    rcases (mem_oia_spec _ _ K).mp hmem with ⟨c, hc, _⟩
    exact hKpa (mem_paths_of.mpr ⟨c, hc⟩)
  · intro hmem
    rcases (mem_diffs_spec hash _ _ K).mp hmem with ⟨c, hv, hc, _, _⟩
    exact hKpa (mem_paths_of.mpr ⟨c, hc⟩)

/-- Witness for C2 on a concrete pair of directories: the before tree
holds `en/v/A.png` and `es/v/B.png`, the after tree only `en/v/A.png`,
so key `es/v/B.png` lands exactly in `only_in_before`. -/
theorem claim_C2_witness :
    ("es/v/B.png") ∈ (DiffResult.mk ([("es/v/B.png")]) [] []).only_in_before ∧
    ("es/v/B.png") ∉ (DiffResult.mk ([("es/v/B.png")]) [] []).only_in_after ∧
    ("es/v/B.png") ∉ (DiffResult.mk ([("es/v/B.png")]) [] []).diffs :=
  @claim_C2 (List Nat) inferInstance (fun c => c)
    ([⟨("b/en/v/A.png"), [0]⟩, ⟨("b/es/v/B.png"), [1]⟩])
    ([⟨("a/en/v/A.png"), [0]⟩])
    ([(("en/v/A.png"), [0]), (("es/v/B.png"), [1])])
    ([(("en/v/A.png"), [0])])
    (DiffResult.mk ([("es/v/B.png")]) [] [])
    (⟨("b/es/v/B.png"), [1]⟩)
    ("es/v/B.png")
    (by decide) (by decide) (by decide) (by decide) (by decide) (by decide)

/-- C3: for every key K that reduces from a file present only under the
after directory (no before-directory file reduces to K), K is a member
of the `only_in_after` result and of no other diff bucket. -/
theorem claim_C3 {H : Type} [DecidableEq H] (hash : List Nat → H)
    {before after : List SFile} {kb ka : List (String × List Nat)}
    {r : DiffResult} {fa : SFile} {K : String}
    (hb : frag_files before = Except.ok kb)
    (ha : frag_files after = Except.ok ka)
    (hr : run_diff hash before after = Except.ok r)
    (hfa : fa ∈ after)
    (hk : get_pathname_fragment fa.path = Except.ok K)
    (hnone : ∀ fb ∈ before, get_pathname_fragment fb.path ≠ Except.ok K) :
    K ∈ r.only_in_after ∧ K ∉ r.only_in_before ∧ K ∉ r.diffs := by
  have hrd := run_diff_ok hash hb ha
  rw [hr] at hrd
  injection hrd with hrd
  subst hrd
  simp only [diff_pure_eq]
  have hKka : (K, fa.content) ∈ ka := frag_files_fwd ha hfa hk
  have hKpb : K ∉ paths_of kb := by
    intro hmem
    rcases mem_paths_of.mp hmem with ⟨c, hc⟩
    rcases frag_files_rev hb hc with ⟨fb, hfb, _, hfrag⟩
    exact hnone fb hfb hfrag
  have hlook : dict_lookup K (before_dict hash kb) = none :=
    (dict_lookup_none_iff hash K kb).mpr hKpb
  refine ⟨(mem_oia_spec _ _ K).mpr ⟨fa.content, hKka, hlook⟩, ?_, ?_⟩
  · intro hmem
    exact hKpb ((mem_set_diff _ _ K).mp hmem).1
  · intro hmem
    rcases (mem_diffs_spec hash _ _ K).mp hmem with ⟨c, hv, _, hsome, _⟩
    rw [hlook] at hsome
    cases hsome

/-- Witness for C3 on a concrete pair of directories: the after tree
holds the extra key `fr/v/C.png`, which lands exactly in
`only_in_after`. -/
theorem claim_C3_witness :
    ("fr/v/C.png") ∈ (DiffResult.mk [] ([("fr/v/C.png")]) []).only_in_after ∧
    ("fr/v/C.png") ∉ (DiffResult.mk [] ([("fr/v/C.png")]) []).only_in_before ∧
    ("fr/v/C.png") ∉ (DiffResult.mk [] ([("fr/v/C.png")]) []).diffs :=
  @claim_C3 (List Nat) inferInstance (fun c => c)
    ([⟨("b/en/v/A.png"), [0]⟩])
    ([⟨("a/en/v/A.png"), [0]⟩, ⟨("a/fr/v/C.png"), [3]⟩])
    ([(("en/v/A.png"), [0])])
    ([(("en/v/A.png"), [0]), (("fr/v/C.png"), [3])])
    (DiffResult.mk [] ([("fr/v/C.png")]) [])
    (⟨("a/fr/v/C.png"), [3]⟩)
    ("fr/v/C.png")
    (by decide) (by decide) (by decide) (by decide) (by decide) (by decide)

/-- C1: for a key K reducing from files present under both roots (with
the keys on each side distinct, so that "the" file at K is determined,
and the digest function collision-free as the spec assumes of sha256):
if the byte contents differ then K lands in `diffs` (the `changed`
bucket), and if they are identical then K appears in none of the three
reported buckets. -/
theorem claim_C1 {H : Type} [DecidableEq H] (hash : List Nat → H)
    {before after : List SFile} {kb ka : List (String × List Nat)}
    {r : DiffResult} {fb fa : SFile} {K : String}
    (hinj : Function.Injective hash)
    (hb : frag_files before = Except.ok kb)
    (ha : frag_files after = Except.ok ka)
    (hr : run_diff hash before after = Except.ok r)
    (hndb : (paths_of kb).Nodup)
    (hnda : (paths_of ka).Nodup)
    (hfb : fb ∈ before)
    (hfa : fa ∈ after)
    (hkb : get_pathname_fragment fb.path = Except.ok K)
    (hka : get_pathname_fragment fa.path = Except.ok K) :
    (fb.content ≠ fa.content → K ∈ r.diffs) ∧
    (fb.content = fa.content →
      K ∉ r.only_in_before ∧ K ∉ r.only_in_after ∧ K ∉ r.diffs) := by
  have hrd := run_diff_ok hash hb ha
  rw [hr] at hrd
  injection hrd with hrd
  subst hrd
  simp only [diff_pure_eq]
  have hmb : (K, fb.content) ∈ kb := frag_files_fwd hb hfb hkb
  have hma : (K, fa.content) ∈ ka := frag_files_fwd ha hfa hka
  have hlook : dict_lookup K (before_dict hash kb) = some (hash fb.content) :=
    dict_lookup_nodup hash hndb hmb
  constructor
  · intro hne
    exact (mem_diffs_spec hash _ _ K).mpr
      ⟨fa.content, hash fb.content, hma, hlook, fun he => hne (hinj he)⟩
  · intro heq
    refine ⟨?_, ?_, ?_⟩
    · intro hm
      exact ((mem_set_diff _ _ K).mp hm).2 (mem_paths_of.mpr ⟨fa.content, hma⟩)
    · intro hm
      rcases (mem_oia_spec _ _ K).mp hm with ⟨c, _, hlo⟩
      rw [hlook] at hlo
      cases hlo
    · intro hm
      rcases (mem_diffs_spec hash _ _ K).mp hm with ⟨c, hv, hc, hlo, hne⟩
      rw [hlook] at hlo
      injection hlo with hlo
      have hcc : c = fa.content := nodup_key_unique hnda hc hma
      subst hcc
      exact hne (by rw [← hlo, heq])

/-- Witness for C1 on a concrete pair of directories: the shared key
`en/v/A.png` has content `[0]` before and `[1]` after, so it lands in
the `diffs` bucket; the identity digest is injective. -/
theorem claim_C1_witness :
    (([0] : List Nat) ≠ [1] →
      ("en/v/A.png") ∈ (DiffResult.mk [] [] ([("en/v/A.png")])).diffs) ∧
    (([0] : List Nat) = [1] →
      ("en/v/A.png") ∉ (DiffResult.mk [] [] ([("en/v/A.png")])).only_in_before ∧
      ("en/v/A.png") ∉ (DiffResult.mk [] [] ([("en/v/A.png")])).only_in_after ∧
      ("en/v/A.png") ∉ (DiffResult.mk [] [] ([("en/v/A.png")])).diffs) :=
  @claim_C1 (List Nat) inferInstance (fun c => c)
    ([⟨("b/en/v/A.png"), [0]⟩])
    ([⟨("a/en/v/A.png"), [1]⟩])
    ([(("en/v/A.png"), [0])])
    ([(("en/v/A.png"), [1])])
    (DiffResult.mk [] [] ([("en/v/A.png")]))
    (⟨("b/en/v/A.png"), [0]⟩)
    (⟨("a/en/v/A.png"), [1]⟩)
    ("en/v/A.png")
    (fun _ _ h => h)
    (by decide) (by decide) (by decide) (by decide) (by decide)
    (by decide) (by decide) (by decide) (by decide)

/-- C4: every key present in either scan is classified in exactly one of
the four buckets `only_in_before`, `only_in_after`, `diffs` (changed)
and the implicit unchanged class; in particular the three reported
buckets are pairwise disjoint as key sets. -/
theorem claim_C4 {H : Type} [DecidableEq H] (hash : List Nat → H)
    {before after : List SFile} {kb ka : List (String × List Nat)}
    {r : DiffResult} {K : String}
    (hb : frag_files before = Except.ok kb)
    (ha : frag_files after = Except.ok ka)
    (hr : run_diff hash before after = Except.ok r)
    (hK : K ∈ paths_of kb ∨ K ∈ paths_of ka) :
    exactly_one (K ∈ r.only_in_before) (K ∈ r.only_in_after) (K ∈ r.diffs)
      (is_unchanged hash kb ka K) := by
  have hrd := run_diff_ok hash hb ha
  rw [hr] at hrd
  injection hrd with hrd
  subst hrd
  simp only [diff_pure_eq]
  by_cases hpb : K ∈ paths_of kb
  · by_cases hpa : K ∈ paths_of ka
    · rcases dict_lookup_of_mem_keys hash hpb with ⟨c0, hc0, hlook⟩
      by_cases hd : ∃ c, (K, c) ∈ ka ∧ hash c ≠ hash c0
      · rcases hd with ⟨c, hc, hne⟩
        apply exactly_one_intro3
        · exact (mem_diffs_spec hash _ _ K).mpr
            ⟨c, hash c0, hc, hlook, fun h => hne h.symm⟩
        · intro h
          exact ((mem_set_diff _ _ K).mp h).2 hpa
        · intro h
          rcases (mem_oia_spec _ _ K).mp h with ⟨c1, _, hnone⟩
          rw [hlook] at hnone
          cases hnone
        · rintro ⟨_, _, hall⟩
          have h2 := hall (K, c) hc rfl
          rw [hlook] at h2
          injection h2 with h2
          exact hne h2.symm
      · apply exactly_one_intro4
        · refine ⟨hpb, hpa, ?_⟩
          intro p hp hpk
          push_neg at hd
          have h2 := hd p.2 (by rw [← hpk]; exact hp)
          rw [hlook, h2]
        · intro h
          exact ((mem_set_diff _ _ K).mp h).2 hpa
        · intro h
          rcases (mem_oia_spec _ _ K).mp h with ⟨c1, _, hnone⟩
          rw [hlook] at hnone
          cases hnone
        · intro h
          rcases (mem_diffs_spec hash _ _ K).mp h with ⟨c1, hv, hc1, hsome, hne⟩
          rw [hlook] at hsome
          injection hsome with hsome
          exact hd ⟨c1, hc1, fun he => hne (by rw [← hsome, he])⟩
    · apply exactly_one_intro1
      · exact (mem_set_diff _ _ K).mpr ⟨hpb, hpa⟩
      · intro h
        rcases (mem_oia_spec _ _ K).mp h with ⟨c, hc, _⟩
        exact hpa (mem_paths_of.mpr ⟨c, hc⟩)
      · intro h
        rcases (mem_diffs_spec hash _ _ K).mp h with ⟨c, hv, hc, _, _⟩
        exact hpa (mem_paths_of.mpr ⟨c, hc⟩)
      · rintro ⟨_, h2, _⟩
        exact hpa h2
  · have hpa : K ∈ paths_of ka := hK.resolve_left hpb
    have hnone : dict_lookup K (before_dict hash kb) = none :=
      (dict_lookup_none_iff hash K kb).mpr hpb
    rcases mem_paths_of.mp hpa with ⟨c, hc⟩
    apply exactly_one_intro2
    · exact (mem_oia_spec _ _ K).mpr ⟨c, hc, hnone⟩
    · intro h
      exact hpb ((mem_set_diff _ _ K).mp h).1
    · intro h
      rcases (mem_diffs_spec hash _ _ K).mp h with ⟨c1, hv, _, hsome, _⟩
      rw [hnone] at hsome
      cases hsome
    · rintro ⟨h1, _, _⟩
      exact hpb h1

/-- Witness for C4 at a concrete changed key: `en/v/A.png` is present in
both scans with different content and is classified exactly as changed. -/
theorem claim_C4_witness :
    exactly_one
      (("en/v/A.png") ∈ (DiffResult.mk [] [] ([("en/v/A.png")])).only_in_before)
      (("en/v/A.png") ∈ (DiffResult.mk [] [] ([("en/v/A.png")])).only_in_after)
      (("en/v/A.png") ∈ (DiffResult.mk [] [] ([("en/v/A.png")])).diffs)
      (is_unchanged (fun c => c) ([(("en/v/A.png"), [0])])
        ([(("en/v/A.png"), [1])]) ("en/v/A.png")) :=
  @claim_C4 (List Nat) inferInstance (fun c => c)
    ([⟨("b/en/v/A.png"), [0]⟩]) ([⟨("a/en/v/A.png"), [1]⟩])
    ([(("en/v/A.png"), [0])]) ([(("en/v/A.png"), [1])])
    (DiffResult.mk [] [] ([("en/v/A.png")])) ("en/v/A.png")
    (by decide) (by decide) (by decide) (Or.inl (by decide))

/-- C5: on two directories whose files reduce to the same key sets with
byte-identical content at each matching key, all three buckets are
empty, no copies are performed, and each renderer emits exactly the
single no-differences fragment. -/
theorem claim_C5 {H : Type} [DecidableEq H] (hash : List Nat → H)
    (upperRepr : String → String) (bd ad od : String)
    {before after : List SFile} {kb ka : List (String × List Nat)} {r : DiffResult}
    (hb : frag_files before = Except.ok kb)
    (ha : frag_files after = Except.ok ka)
    (hr : run_diff hash before after = Except.ok r)
    (hkeys : ∀ K, K ∈ paths_of kb ↔ K ∈ paths_of ka)
    (hcontent : ∀ p ∈ kb, ∀ q ∈ ka, p.1 = q.1 → p.2 = q.2) :
    r.only_in_before = [] ∧ r.only_in_after = [] ∧ r.diffs = [] ∧
    (render_report upperRepr bd ad od r).copies = [] ∧
    (render_report upperRepr bd ad od r).html = ("<h1>No differences found</h1>") ∧
    (render_simple bd ad od r).html = ("<html><body><p>No differences found</p>") := by
  have hrd := run_diff_ok hash hb ha
  rw [hr] at hrd
  injection hrd with hrd
  subst hrd
  simp only [diff_pure_eq]
  have h1 : set_diff (paths_of kb) (paths_of ka) = [] := by
    rw [List.eq_nil_iff_forall_not_mem]
    intro a hmem
    rcases (mem_set_diff _ _ a).mp hmem with ⟨hin, hnot⟩
    exact hnot ((hkeys a).mp hin)
  have h2 : oia_spec (before_dict hash kb) ka = [] := by
    rw [List.eq_nil_iff_forall_not_mem]
    intro a hmem
    rcases (mem_oia_spec _ _ a).mp hmem with ⟨c, hc, hnone⟩
    exact ((dict_lookup_none_iff hash a kb).mp hnone)
      ((hkeys a).mpr (mem_paths_of.mpr ⟨c, hc⟩))
  have h3 : diffs_spec hash (before_dict hash kb) ka = [] := by
    rw [List.eq_nil_iff_forall_not_mem]
    intro a hmem
    rcases (mem_diffs_spec hash _ _ a).mp hmem with ⟨c, hv, hc, hsome, hne⟩
    have hpb : a ∈ paths_of kb := (hkeys a).mpr (mem_paths_of.mpr ⟨c, hc⟩)
    rcases dict_lookup_of_mem_keys hash hpb with ⟨c0, hc0, hlook⟩
    rw [hlook] at hsome
    injection hsome with hsome
    have hcc : c0 = c := hcontent (a, c0) hc0 (a, c) hc rfl
    exact hne (by rw [← hsome, hcc])
  rw [h1, h2, h3]
  exact ⟨rfl, rfl, rfl, rfl, rfl, rfl⟩

/-- Witness for C5: identical single-file directories produce empty
buckets and the no-differences fragments. -/
theorem claim_C5_witness :
    (DiffResult.mk [] [] []).only_in_before = [] ∧
    (DiffResult.mk [] [] []).only_in_after = [] ∧
    (DiffResult.mk [] [] []).diffs = [] ∧
    (render_report (fun s => s) ("b") ("a") ("o") (DiffResult.mk [] [] [])).copies = [] ∧
    (render_report (fun s => s) ("b") ("a") ("o") (DiffResult.mk [] [] [])).html =
      ("<h1>No differences found</h1>") ∧
    (render_simple ("b") ("a") ("o") (DiffResult.mk [] [] [])).html =
      ("<html><body><p>No differences found</p>") :=
  @claim_C5 (List Nat) inferInstance (fun c => c) (fun s => s) ("b") ("a") ("o")
    ([⟨("b/en/v/A.png"), [0]⟩]) ([⟨("a/en/v/A.png"), [0]⟩])
    ([(("en/v/A.png"), [0])]) ([(("en/v/A.png"), [0])])
    (DiffResult.mk [] [] [])
    (by decide) (by decide) (by decide) (fun K => Iff.rfl) (by decide)

theorem frag_removed_split (u : String → String) (k : String) :
    frag_removed u k =
      (("<p><h2>") ++ u (seg1 k) ++ (": ")) ++
      (("REMOVED ") ++ name_of k ++ ("</h2><img src=\x27") ++
        pjoin ("before") k ++ ("\x27></p>")) := by
  have key : ∀ X : String, (": REMOVED ") ++ X = (": ") ++ (("REMOVED ") ++ X) := by
    intro X
    rw [← String.append_assoc]
    rw [(by decide : (": ") ++ ("REMOVED ") = (": REMOVED "))]
  unfold frag_removed
  simp only [String.append_assoc]
  rw [key]

theorem frag_added_split (u : String → String) (k : String) :
    frag_added u k =
      (("<p><h2>") ++ u (seg1 k) ++ (": ")) ++
      (("ADDED ") ++ name_of k ++ ("</h2><img src=\x27") ++
        pjoin ("after") k ++ ("\x27></p>")) := by
  have key : ∀ X : String, (": ADDED ") ++ X = (": ") ++ (("ADDED ") ++ X) := by
    intro X
    rw [← String.append_assoc]
    rw [(by decide : (": ") ++ ("ADDED ") = (": ADDED "))]
  unfold frag_added
  simp only [String.append_assoc]
  rw [key]

/-- C6 counterexample: the claim says every path with fewer than three
segments raises a path-shape error, but the simpler variant's
`get_pathname_fragment` has no length check: on the 2-segment path
`tools_views/Foo.png` it returns that path as a key instead of raising.
The styled variant does raise on the same input. -/
theorem claim_C6_counterexample :
    (splitPath ("tools_views/Foo.png")).length = 2 ∧
    get_pathname_fragment_simple ("tools_views/Foo.png") = ("tools_views/Foo.png") ∧
    get_pathname_fragment ("tools_views/Foo.png") =
      Except.error ("Path should have at least 3 parts: tools_views/Foo.png") := by
  refine ⟨by decide, by decide, by decide⟩

/-- C6 amended: both variants map a path of at least three segments to
the join of its last three segments; on a shorter path only the styled
variant raises the path-shape error, while the simpler variant returns
the join of all available segments as a key. -/
theorem claim_C6_amended (path : String) :
    (3 ≤ (splitPath path).length →
      get_pathname_fragment path =
        Except.ok (join_sep ((splitPath path).drop ((splitPath path).length - 3))) ∧
      get_pathname_fragment_simple path =
        join_sep ((splitPath path).drop ((splitPath path).length - 3))) ∧
    ((splitPath path).length < 3 →
      get_pathname_fragment path =
        Except.error (("Path should have at least 3 parts: ") ++ path) ∧
      get_pathname_fragment_simple path = join_sep (splitPath path)) := by
  constructor
  · intro h
    constructor
    · unfold get_pathname_fragment
      rw [if_neg (by omega)]
    · rfl
  · intro h
    constructor
    · unfold get_pathname_fragment
      rw [if_pos h]
    · unfold get_pathname_fragment_simple
      have h0 : (splitPath path).length - 3 = 0 := by omega
      rw [h0, List.drop_zero]

/-- Witness for the amended C6 at a 4-segment and a 2-segment path. -/
theorem claim_C6_amended_witness :
    (get_pathname_fragment ("a/en/tools_views/Foo.png") =
        Except.ok (join_sep ((splitPath ("a/en/tools_views/Foo.png")).drop
          ((splitPath ("a/en/tools_views/Foo.png")).length - 3))) ∧
      get_pathname_fragment_simple ("a/en/tools_views/Foo.png") =
        join_sep ((splitPath ("a/en/tools_views/Foo.png")).drop
          ((splitPath ("a/en/tools_views/Foo.png")).length - 3))) ∧
    (get_pathname_fragment ("tools_views/Foo.png") =
        Except.error (("Path should have at least 3 parts: ") ++ ("tools_views/Foo.png")) ∧
      get_pathname_fragment_simple ("tools_views/Foo.png") =
        join_sep (splitPath ("tools_views/Foo.png"))) :=
  ⟨(claim_C6_amended ("a/en/tools_views/Foo.png")).1 (by decide),
   (claim_C6_amended ("tools_views/Foo.png")).2 (by decide)⟩

/-- C7 counterexample: the claim says the renderer copies each
`only_in_before` file under the output tree, but in the simpler variant
every `shutil.copy` call is commented out: on a before-only key the diff
reports the key yet the renderer performs no copy at all. -/
theorem claim_C7_counterexample :
    (run_diff (fun c => c) ([⟨("r/en/v/A.png"), [0]⟩]) []).map
        (fun r => (r.only_in_before, (render_simple ("b") ("a") ("o") r).copies))
      = Except.ok ([("en/v/A.png")], []) := by decide

/-- C7 amended: the styled variant does satisfy the contract — for every
key in `only_in_before` it copies the before file to
`<output>/before/<key>` and appends a fragment carrying the
`REMOVED <name>` label and the image reference, symmetrically for
`only_in_after` with `ADDED`, and for changed keys it copies both
versions — while the simpler variant performs no copies at all. -/
theorem claim_C7_amended (u : String → String) (bd ad od : String) (r : DiffResult) :
    (∀ k ∈ r.only_in_before,
      (pjoin bd k, pjoin (pjoin od ("before")) k) ∈ (render_report u bd ad od r).copies ∧
      ∃ s1 s2, (render_report u bd ad od r).html =
        s1 ++ (("REMOVED ") ++ name_of k ++ ("</h2><img src=\x27") ++
          pjoin ("before") k ++ ("\x27></p>")) ++ s2) ∧
    (∀ k ∈ r.only_in_after,
      (pjoin ad k, pjoin (pjoin od ("after")) k) ∈ (render_report u bd ad od r).copies ∧
      ∃ s1 s2, (render_report u bd ad od r).html =
        s1 ++ (("ADDED ") ++ name_of k ++ ("</h2><img src=\x27") ++
          pjoin ("after") k ++ ("\x27></p>")) ++ s2) ∧
    (∀ k ∈ r.diffs,
      (pjoin bd k, pjoin (pjoin od ("before")) k) ∈ (render_report u bd ad od r).copies ∧
      (pjoin ad k, pjoin (pjoin od ("after")) k) ∈ (render_report u bd ad od r).copies) ∧
    (render_simple bd ad od r).copies = [] := by
  refine ⟨?_, ?_, ?_, rfl⟩
  · intro k hk
    constructor
    · simp only [render_report]
      exact List.mem_append_left _ (List.mem_append_left _ (List.mem_map_of_mem _ hk))
    · simp only [render_report]
      obtain ⟨s1, s2, hd⟩ := concat_map_decomp (frag_removed u) hk
      refine ⟨s1 ++ (("<p><h2>") ++ u (seg1 k) ++ (": ")),
        s2 ++ (concat_map (frag_added u) r.only_in_after ++
          concat_map (frag_changed u) r.diffs ++
          (if r.only_in_after.isEmpty && r.only_in_before.isEmpty && r.diffs.isEmpty
            then ("<h1>No differences found</h1>") else (""))), ?_⟩
      rw [hd, frag_removed_split]
      simp [String.append_assoc]
  · intro k hk
    constructor
    · simp only [render_report]
      exact List.mem_append_left _ (List.mem_append_right _ (List.mem_map_of_mem _ hk))
    · simp only [render_report]
      obtain ⟨s1, s2, hd⟩ := concat_map_decomp (frag_added u) hk
      refine ⟨concat_map (frag_removed u) r.only_in_before ++
          (s1 ++ (("<p><h2>") ++ u (seg1 k) ++ (": "))),
        s2 ++ (concat_map (frag_changed u) r.diffs ++
          (if r.only_in_after.isEmpty && r.only_in_before.isEmpty && r.diffs.isEmpty
            then ("<h1>No differences found</h1>") else (""))), ?_⟩
      rw [hd, frag_added_split]
      simp [String.append_assoc]
  · intro k hk
    constructor
    · simp only [render_report]
      refine List.mem_append_right _ (List.mem_flatMap.mpr ⟨k, hk, ?_⟩)
      simp
    · simp only [render_report]
      refine List.mem_append_right _ (List.mem_flatMap.mpr ⟨k, hk, ?_⟩)
      simp

/-- Witness for the amended C7 on a concrete diff result with one
removed, one added and one changed key. -/
theorem claim_C7_amended_witness :
    ((pjoin ("b") ("en/v/A.png"), pjoin (pjoin ("o") ("before")) ("en/v/A.png")) ∈
      (render_report (fun s => s) ("b") ("a") ("o")
        (DiffResult.mk ([("en/v/A.png")]) ([("en/v/B.png")]) ([("en/v/C.png")]))).copies ∧
    ∃ s1 s2, (render_report (fun s => s) ("b") ("a") ("o")
        (DiffResult.mk ([("en/v/A.png")]) ([("en/v/B.png")]) ([("en/v/C.png")]))).html =
      s1 ++ (("REMOVED ") ++ name_of ("en/v/A.png") ++ ("</h2><img src=\x27") ++
        pjoin ("before") ("en/v/A.png") ++ ("\x27></p>")) ++ s2) ∧
    ((pjoin ("a") ("en/v/B.png"), pjoin (pjoin ("o") ("after")) ("en/v/B.png")) ∈
      (render_report (fun s => s) ("b") ("a") ("o")
        (DiffResult.mk ([("en/v/A.png")]) ([("en/v/B.png")]) ([("en/v/C.png")]))).copies ∧
    ∃ s1 s2, (render_report (fun s => s) ("b") ("a") ("o")
        (DiffResult.mk ([("en/v/A.png")]) ([("en/v/B.png")]) ([("en/v/C.png")]))).html =
      s1 ++ (("ADDED ") ++ name_of ("en/v/B.png") ++ ("</h2><img src=\x27") ++
        pjoin ("after") ("en/v/B.png") ++ ("\x27></p>")) ++ s2) ∧
    ((pjoin ("b") ("en/v/C.png"), pjoin (pjoin ("o") ("before")) ("en/v/C.png")) ∈
      (render_report (fun s => s) ("b") ("a") ("o")
        (DiffResult.mk ([("en/v/A.png")]) ([("en/v/B.png")]) ([("en/v/C.png")]))).copies ∧
    (pjoin ("a") ("en/v/C.png"), pjoin (pjoin ("o") ("after")) ("en/v/C.png")) ∈
      (render_report (fun s => s) ("b") ("a") ("o")
        (DiffResult.mk ([("en/v/A.png")]) ([("en/v/B.png")]) ([("en/v/C.png")]))).copies) ∧
    (render_simple ("b") ("a") ("o")
      (DiffResult.mk ([("en/v/A.png")]) ([("en/v/B.png")]) ([("en/v/C.png")]))).copies = [] :=
  ⟨(claim_C7_amended (fun s => s) ("b") ("a") ("o")
      (DiffResult.mk ([("en/v/A.png")]) ([("en/v/B.png")]) ([("en/v/C.png")]))).1
      ("en/v/A.png") (by decide),
   (claim_C7_amended (fun s => s) ("b") ("a") ("o")
      (DiffResult.mk ([("en/v/A.png")]) ([("en/v/B.png")]) ([("en/v/C.png")]))).2.1
      ("en/v/B.png") (by decide),
   (claim_C7_amended (fun s => s) ("b") ("a") ("o")
      (DiffResult.mk ([("en/v/A.png")]) ([("en/v/B.png")]) ([("en/v/C.png")]))).2.2.1
      ("en/v/C.png") (by decide),
   (claim_C7_amended (fun s => s) ("b") ("a") ("o")
      (DiffResult.mk ([("en/v/A.png")]) ([("en/v/B.png")]) ([("en/v/C.png")]))).2.2.2⟩

/-- C8 counterexample: the claim says each variant substitutes its
fragment string into a fixed template at the placeholder and copies the
stylesheet asset, but the simpler variant's final phase performs no
template substitution — it writes the plainly concatenated string to
`diffs.html` — and copies nothing at all. -/
theorem claim_C8_counterexample :
    (final_simple ("o") ("<html><body>x")).copies = [] ∧
    (final_simple ("o") ("<html><body>x")).writes =
      [(("o/diffs.html"), ("<html><body>x</body></html>"))] := by
  refine ⟨rfl, by decide⟩

/-- C8 amended: the styled variant writes `output_dir/index.html` by
substituting the fragment string into its template at the
`\x7b\x7b content \x7d\x7d` placeholder and copies `pico.min.css` into
the output directory; the simpler variant instead appends the fixed
closing tags and writes `output_dir/diffs.html`, copying no asset. -/
theorem claim_C8_amended (template script_dir od html_content : String) :
    final_report template script_dir od html_content =
      FinalOut.mk
        ([(pjoin od ("index.html"), template.replace placeholder html_content)])
        ([(pjoin script_dir ("pico.min.css"), pjoin od ("pico.min.css"))]) ∧
    (final_report template script_dir od html_content).copies.length = 1 ∧
    final_simple od html_content =
      FinalOut.mk ([(pjoin od ("diffs.html"), html_content ++ ("</body></html>"))]) [] ∧
    (final_simple od html_content).copies = [] :=
  ⟨rfl, rfl, rfl, rfl⟩

/-- C9: duplicate keys in the before directory raise no error — the run
still succeeds — and the before map binds each key to the digest of the
last-enumerated file for it (`find_first` on the reversed insertion
order), which is exactly the binding the changed/unchanged decision of
the after loop consults. -/
theorem claim_C9 {H : Type} [DecidableEq H] (hash : List Nat → H)
    {before after : List SFile} {kb ka : List (String × List Nat)}
    (hb : frag_files before = Except.ok kb)
    (ha : frag_files after = Except.ok ka) :
    run_diff hash before after = Except.ok (diff_pure hash kb ka) ∧
    (∀ K, dict_lookup K (before_dict hash kb) =
      Option.map (fun p => hash p.2) (find_first K kb.reverse)) ∧
    (diff_pure hash kb ka).diffs = diffs_spec hash (before_dict hash kb) ka := by
  refine ⟨run_diff_ok hash hb ha, fun K => before_dict_lookup hash K kb, ?_⟩
  rw [diff_pure_eq]

/-- Witness for C9: the before tree enumerates two files that both
reduce to `en/v/A.png`, with contents `[0]` then `[1]`; no error is
raised, the map keeps the digest of the last file `[1]`, and the after
file with content `[0]` — equal to the first duplicate — is therefore
classified as changed. -/
theorem claim_C9_witness :
    (run_diff (fun c => c)
        ([⟨("r/en/v/A.png"), [0]⟩, ⟨("s/en/v/A.png"), [1]⟩])
        ([⟨("t/en/v/A.png"), [0]⟩]) =
      Except.ok (diff_pure (fun c => c)
        ([(("en/v/A.png"), [0]), (("en/v/A.png"), [1])])
        ([(("en/v/A.png"), [0])]))) ∧
    (∀ K, dict_lookup K (before_dict (fun c => c)
        ([(("en/v/A.png"), [0]), (("en/v/A.png"), [1])])) =
      Option.map (fun p => p.2)
        (find_first K ([(("en/v/A.png"), [0]), (("en/v/A.png"), [1])]).reverse)) ∧
    (diff_pure (fun c => c)
        ([(("en/v/A.png"), [0]), (("en/v/A.png"), [1])])
        ([(("en/v/A.png"), [0])])).diffs =
      diffs_spec (fun c => c)
        (before_dict (fun c => c) ([(("en/v/A.png"), [0]), (("en/v/A.png"), [1])]))
        ([(("en/v/A.png"), [0])]) ∧
    dict_lookup ("en/v/A.png") (before_dict (fun c => c)
      ([(("en/v/A.png"), [0]), (("en/v/A.png"), [1])])) = some [1] ∧
    (diff_pure (fun c => c)
        ([(("en/v/A.png"), [0]), (("en/v/A.png"), [1])])
        ([(("en/v/A.png"), [0])])).diffs = [("en/v/A.png")] := by
  have h := @claim_C9 (List Nat) inferInstance (fun c => c)
    ([⟨("r/en/v/A.png"), [0]⟩, ⟨("s/en/v/A.png"), [1]⟩])
    ([⟨("t/en/v/A.png"), [0]⟩])
    ([(("en/v/A.png"), [0]), (("en/v/A.png"), [1])])
    ([(("en/v/A.png"), [0])])
    (by decide) (by decide)
  exact ⟨h.1, h.2.1, h.2.2, by decide, by decide⟩

/-- C10: `only_in_after` and `diffs` are plain lists, so a key reached
by several after-directory files occurs once per file in its bucket and
the renderer performs one copy and emits one fragment per occurrence,
while `only_in_before` is deduplicated by the set difference: here the
two before files at key `en/v/B.png` yield a single entry, the two
after files at `en/v/C.png` yield two `only_in_after` entries, two
copies and two fragments, and the two after files at `en/v/D.png` yield
two `diffs` entries. -/
theorem claim_C10 :
    run_diff (fun c => c)
      ([⟨("r/en/v/B.png"), [0]⟩, ⟨("s/en/v/B.png"), [1]⟩, ⟨("r/en/v/D.png"), [4]⟩])
      ([⟨("x/en/v/C.png"), [2]⟩, ⟨("y/en/v/C.png"), [3]⟩,
        ⟨("x/en/v/D.png"), [5]⟩, ⟨("y/en/v/D.png"), [6]⟩]) =
      Except.ok (DiffResult.mk ([("en/v/B.png")])
        ([("en/v/C.png"), ("en/v/C.png")]) ([("en/v/D.png"), ("en/v/D.png")])) ∧
    (paths_of ([(("en/v/B.png"), [0]), (("en/v/B.png"), [1]), (("en/v/D.png"), [4])])).count
      ("en/v/B.png") = 2 ∧
    ((render_report (fun s => s) ("b") ("a") ("o")
      (DiffResult.mk ([("en/v/B.png")])
        ([("en/v/C.png"), ("en/v/C.png")]) ([("en/v/D.png"), ("en/v/D.png")]))).copies.count
      ((pjoin ("a") ("en/v/C.png")), pjoin (pjoin ("o") ("after")) ("en/v/C.png"))) = 2 ∧
    (∃ s1 s2 s3, (render_report (fun s => s) ("b") ("a") ("o")
      (DiffResult.mk ([("en/v/B.png")])
        ([("en/v/C.png"), ("en/v/C.png")]) ([("en/v/D.png"), ("en/v/D.png")]))).html =
      s1 ++ frag_added (fun s => s) ("en/v/C.png") ++ s2 ++
        frag_added (fun s => s) ("en/v/C.png") ++ s3) := by
  refine ⟨by decide, by decide, by decide,
    ⟨frag_removed (fun s => s) ("en/v/B.png"), (""),
      concat_map (frag_changed (fun s => s)) ([("en/v/D.png"), ("en/v/D.png")]),
      by decide⟩⟩
